import Mathlib

/-!
Verification of the ISIIS data-processing scripts.

Each Python source file is shallowly embedded below: strings are lists of
characters (or Lean `String`s where only equality matters), datetimes are
integers counting nanoseconds since the epoch in UTC, dataframes are lists
of records, and fallible code returns `Option`.
-/

namespace ISIIS

/-! ## Path primitives, modelling the `os.path` (posixpath) operations used
by the scripts, on paths represented as lists of characters. -/

/-- Model of `os.path.basename`: the part of the path after the last slash. -/
def basename (p : List Char) : List Char :=
  (p.reverse.takeWhile (fun c => c != '/')).reverse

/-- Model of `os.path.dirname`: everything up to the last slash, with trailing
slashes stripped unless the result consists of slashes only. -/
def dirname (p : List Char) : List Char :=
  let head := (p.reverse.dropWhile (fun c => c != '/')).reverse
  if head.any (fun c => c != '/') then
    (head.reverse.dropWhile (fun c => c == '/')).reverse
  else head

/-- Model of `os.path.join` for one extra component (posixpath): an absolute
second component replaces the first; otherwise the parts are joined with a
slash unless the first part is empty or already ends in one. -/
def joinPath (a b : List Char) : List Char :=
  if b.head? = some '/' then b
  else if a = [] ∨ a.getLast? = some '/' then a ++ b
  else a ++ '/' :: b

/-- Model of `os.path.splitext` restricted to a basename (no slash): split at
the last dot, unless every character before that dot is itself a dot. -/
def splitextBase (b : List Char) : List Char × List Char :=
  let r := b.reverse
  let eRev := r.takeWhile (fun c => c != '.')
  if eRev.length = r.length then (b, [])
  else
    let stem := (r.drop (eRev.length + 1)).reverse
    if stem.any (fun c => c != '.') then (stem, '.' :: eRev.reverse) else (b, [])

/-- Python whitespace stripping (`str.strip()`) on a character list. -/
def trimL (s : List Char) : List Char :=
  ((s.dropWhile Char.isWhitespace).reverse.dropWhile Char.isWhitespace).reverse

/-- Python `line.split(', ')`: split on the exact two-character separator,
leftmost occurrence first, keeping empty segments. -/
def splitCommaSpace : List Char → List (List Char)
  | [] => [[]]
  | ',' :: ' ' :: rest => [] :: splitCommaSpace rest
  | c :: rest =>
      match splitCommaSpace rest with
      | [] => [[c]]
      | seg :: segs => (c :: seg) :: segs

/-- Python `s.split(':')`. -/
def splitColon : List Char → List (List Char)
  | [] => [[]]
  | ':' :: rest => [] :: splitColon rest
  | c :: rest =>
      match splitColon rest with
      | [] => [[c]]
      | seg :: segs => (c :: seg) :: segs

/-! ## Model of `videos2mp4.py` -/

/-- A filesystem, as an association list from paths to file contents. -/
abbrev FS := List (List Char × List Char)

/-- Whether a path exists in the filesystem (`os.path.exists`). -/
def fsHas (fs : FS) (p : List Char) : Bool := fs.any (fun e => e.1 == p)

/-- Model of the external ffmpeg libx264 transcoding of the input video.
The claims depend only on which path the output is stored at, so the content
is an abstract tag of the input path. -/
def ffmpegConvert (videoPath : List Char) : List Char :=
  "h264:".toList ++ videoPath

/-- The output path `os.path.join(output_dir, video_name + ".mp4")` computed
by `convert_avi_to_mp4`, where `video_name` is the basename of the video
without its extension. -/
def output_mp4 (video_path output_dir : List Char) : List Char :=
  joinPath output_dir ((splitextBase (basename video_path)).1 ++ ".mp4".toList)

/-- Model of `convert_avi_to_mp4` from `videos2mp4.py`: returns the updated
filesystem and the returned output path. If the MP4 already exists the
conversion is skipped and the filesystem is returned unchanged; otherwise the
converted file is written at the output path. -/
def convert_avi_to_mp4 (fs : FS) (video_path output_dir : List Char) :
    FS × List Char :=
  let out := output_mp4 video_path output_dir
  if fsHas fs out then (fs, out)
  else (fs ++ [(out, ffmpegConvert video_path)], out)

/-! ## Model of the rename loop of `matchdepth.py` -/

/-- Model of the body of the rename loop in the main section of
`matchdepth.py`: given a matched image path and the depth string, returns
`none` when the file is skipped (its base name already ends in `m`), and
otherwise the new file path: the original base name, an underscore, the depth,
the letter `m` and the original extension, inside the original directory. -/
def rename_step (path depth : List Char) : Option (List Char) :=
  let original_name := (splitextBase (basename path)).1
  let extension := (splitextBase (basename path)).2
  if original_name.getLast? = some 'm' then none
  else
    let new_file_name := original_name ++ '_' :: (depth ++ 'm' :: extension)
    some (joinPath (dirname path) new_file_name)

/-! ## Model of the timestamp matching of `matchdepth.py` -/

/-- A row of the ROV-CTD log dataframe `df1`: the UTC timestamp in nanoseconds
since the epoch, the numeric `depth` column (processed logs) and the raw
`rov_ctd_pressure` string column (raw logs). -/
structure LogRow where
  timestamp : Int
  depth : ℚ
  rov_ctd_pressure : List Char
deriving DecidableEq

/-- A row of the image dataframe `df2`: the UTC capture timestamp in
nanoseconds since the epoch and the image path. -/
structure ImgRow where
  iso_datetime : Int
  path : List Char
deriving DecidableEq

/-- Nanoseconds per second: timestamps are counted in nanoseconds. -/
def nsPerSec : Int := 1000000000

/-- Model of `add_seconds` from `matchdepth.py`: add a number of seconds to a
timestamp. -/
def add_seconds (dt : Int) (seconds : Int) : Int := dt + seconds * nsPerSec

/-- The absolute difference between two timestamps in whole seconds, as
computed by `np.abs((t1 - t2).astype('timedelta64[s]').astype(float))`:
numpy's downcast of the nanosecond difference to seconds rounds toward
negative infinity (floor), and the absolute value is taken afterwards — so a
negative difference of a non-whole number of seconds is rounded away from
zero, e.g. a difference of minus 8.5 seconds gives distance 9. -/
def diffSec (t1 t2 : Int) : Nat := ((t1 - t2).fdiv nsPerSec).natAbs

/-- The depth reported for a match: the stripped raw `rov_ctd_pressure`
string when the module-level `raw` flag is set, the numeric `depth` column
otherwise. -/
def matchDepth (raw : Bool) (lr : LogRow) : List Char ⊕ ℚ :=
  if raw then Sum.inl (trimL lr.rov_ctd_pressure) else Sum.inr lr.depth

/-- A result tuple `(ts_img, depth_rovctd, ts_rovctd, img_path)` appended by
`find_matching_timestamps`. Mirroring the source's own (swapped) naming, its
`ts_img` holds the log-row timestamp and its `ts_rovctd` the image timestamp. -/
abbrev MatchTuple := Int × (List Char ⊕ ℚ) × Int × List Char

/-- The row of `diff_matrix` for one image: the absolute whole-second
difference between log row `j` and the defase-adjusted image timestamp. -/
def imgDiff (df1 : List LogRow) (defase : Int) (img : ImgRow)
    (j : Fin df1.length) : Nat :=
  diffSec (df1.get j).timestamp (add_seconds img.iso_datetime defase)

/-- The per-image body of the loop of `find_matching_timestamps`: the log row
at the smallest (first, on ties, as `np.argmin`) absolute whole-second
difference from the defase-adjusted image timestamp is selected, and the
result tuple is produced exactly when that minimal difference is at most the
threshold. -/
def matchStep (df1 : List LogRow) (defase : Int) (threshold : Nat) (raw : Bool)
    (img : ImgRow) : Option MatchTuple :=
  match (List.finRange df1.length).argmin (imgDiff df1 defase img) with
  | none => none
  | some j =>
      if imgDiff df1 defase img j ≤ threshold then
        some ((df1.get j).timestamp, matchDepth raw (df1.get j),
          img.iso_datetime, img.path)
      else none

/-- Model of `find_matching_timestamps` from `matchdepth.py` (defaults in the
source: `defase = 0`, `threshold = 8`). Returns `none` for the `ValueError`
that `np.argmin` raises on an empty axis (an empty log table while images are
present); otherwise the list of result tuples, in image order. -/
def find_matching_timestamps (df1 : List LogRow) (df2 : List ImgRow)
    (defase : Int) (threshold : Nat) (raw : Bool) : Option (List MatchTuple) :=
  if df1.isEmpty && !df2.isEmpty then none
  else some (df2.filterMap (matchStep df1 defase threshold raw))

/-! ## Model of the raw-log parsing of `matchdepth.py` -/

/-- Whether the string is nonempty and all decimal digits. -/
def allDigits (s : List Char) : Bool := !s.isEmpty && s.all Char.isDigit

/-- Numeric value of a list of decimal digits. -/
def digitsVal (l : List Char) : Nat := l.foldl (fun a c => a * 10 + (c.toNat - 48)) 0

/-- Model of `str.zfill(3)`: left-pad with zeros to length three, keeping a
leading sign in front. -/
def zfill3 (s : List Char) : List Char :=
  let signDigits : List Char × List Char :=
    match s with
    | c :: rest => if c = '+' ∨ c = '-' then ([c], rest) else ([], s)
    | [] => ([], [])
  if s.length < 3 then
    signDigits.1 ++ List.replicate (3 - s.length) '0' ++ signDigits.2
  else s

/-- The components of a date parsed by `datetime.strptime` with the format
`'%Y-%j %H:%M:%S %z'`: year, day of the year, time of day, and the UTC offset
in minutes. -/
structure ParsedDate where
  year : Nat
  yearday : Nat
  hour : Nat
  minute : Nat
  second : Nat
  tzMinutes : Int
deriving DecidableEq

/-- Model of a UTC-offset token accepted by `%z`: `Z`, or a sign followed by
two hour digits, an optional colon, and two minute digits; the offset is
returned in minutes. -/
def parseTz (s : List Char) : Option Int :=
  if s = ['Z'] then some 0
  else
    match s with
    | sign :: h1 :: h2 :: rest =>
        if (sign = '+' ∨ sign = '-') ∧ h1.isDigit ∧ h2.isDigit then
          let hours : Int := digitsVal [h1, h2]
          let mins? : Option Int :=
            match rest with
            | [m1, m2] =>
                if m1.isDigit ∧ m2.isDigit then some (digitsVal [m1, m2]) else none
            | [c, m1, m2] =>
                if c = ':' ∧ m1.isDigit ∧ m2.isDigit then
                  some (digitsVal [m1, m2])
                else none
            | _ => none
          match mins? with
          | some m => some ((if sign = '-' then -1 else 1) * (hours * 60 + m))
          | none => none
        else none
    | _ => none

/-- Parse a one- or two-digit field bounded by `hi`, as the `%H`, `%M` and
`%S` directives do. -/
def parse2 (s : List Char) (hi : Nat) : Option Nat :=
  if (s.length = 1 ∨ s.length = 2) ∧ allDigits s = true ∧ digitsVal s ≤ hi then
    some (digitsVal s)
  else none

/-- Model of `parse_log_date` from `matchdepth.py`: build the string
`'{year}-{yearday.zfill(3)} {time_string.strip()} {timezone}'` and parse it
with `datetime.strptime(_, '%Y-%j %H:%M:%S %z')`; on any parse failure a
message is printed and `None` is returned. `%Y` requires exactly four
digits, `%j` a year-day between 1 and 366 (three digits after `zfill(3)`),
hours at most 23, minutes at most 59 and seconds at most 61. -/
def parse_log_date (year yearday time_string timezone : List Char) :
    Option ParsedDate :=
  let yd := zfill3 yearday
  let ts := trimL time_string
  if allDigits year = true ∧ year.length = 4 ∧ allDigits yd = true ∧
      yd.length = 3 ∧ 1 ≤ digitsVal yd ∧ digitsVal yd ≤ 366 then
    match splitColon ts with
    | [hs, ms, ss] =>
        match parse2 hs 23, parse2 ms 59, parse2 ss 61, parseTz timezone with
        | some h, some m, some s, some tz =>
            some ⟨digitsVal year, digitsVal yd, h, m, s, tz⟩
        | _, _, _, _ => none
    | _ => none
  else none

/-- A row produced by `parse_log_file_to_dataframe`: the comma-separated
fields of the line together with the appended `parsed_datetime` value
(`none` models the `np.nan` appended when the date fails to parse). -/
structure LogLine where
  fields : List (List Char)
  parsed_datetime : Option ParsedDate
deriving DecidableEq

/-- The data entries of the log file: the lines not starting with `#`,
stripped. -/
def logEntries (lines : List (List Char)) : List (List Char) :=
  (lines.filter (fun l => !("#".toList.isPrefixOf l))).map trimL

/-- The parsed date of one entry with at least 20 fields, read from fields
16 to 19 (year, yearday, time, timezone). -/
def entryDate (data : List (List Char)) : Option ParsedDate :=
  parse_log_date (data.getD 16 []) (data.getD 17 []) (data.getD 18 [])
    (data.getD 19 [])

/-- The loop of `parse_log_file_to_dataframe` over the data entries: each
entry with at least 20 comma-separated fields becomes a row (with its parsed
date appended, `none` when parsing failed), and each shorter entry goes to
the printed error list. Returns the rows and the error lines, each in input
order. -/
def parseEntriesLoop : List (List Char) → List LogLine × List (List Char)
  | [] => ([], [])
  | e :: rest =>
      let acc := parseEntriesLoop rest
      let data := splitCommaSpace e
      if 20 ≤ data.length then
        (⟨data, entryDate data⟩ :: acc.1, acc.2)
      else (acc.1, e :: acc.2)

/-- Model of `parse_log_file_to_dataframe` from `matchdepth.py`: the rows of
the resulting dataframe and the error lines printed, as functions of the raw
lines of the file. -/
def parse_log_file_to_dataframe (lines : List (List Char)) :
    List LogLine × List (List Char) :=
  parseEntriesLoop (logEntries lines)

/-! ## Model of `filter_time_and_pressure_data` from `matchdepth.py` -/

/-- The columns of a log row read by `filter_time_and_pressure_data`. -/
structure PressureRow where
  rov_ctd_pressure : List Char
  rov_pressure : List Char
deriving DecidableEq

/-- The exact value of a parsed decimal literal, as an integer mantissa and a
power-of-ten scale: the parsed value is `mantissa / 10 ^ scale`. -/
structure DecVal where
  mantissa : Int
  scale : Nat
deriving DecidableEq

/-- The rational value of a parsed decimal. -/
def DecVal.toRat (v : DecVal) : ℚ := (v.mantissa : ℚ) / 10 ^ v.scale

/-- Parse a plain decimal literal as Python `float()` does on the pressure
strings (optional surrounding whitespace, optional sign, digits with an
optional single decimal point; exponents and special values do not occur in
the data and are not modelled). -/
def parseFloat? (s : List Char) : Option DecVal :=
  let t := trimL s
  let signRest : Int × List Char :=
    match t with
    | c :: r => if c = '-' then (-1, r) else if c = '+' then (1, r) else (1, t)
    | [] => (1, [])
  let intPart := signRest.2.takeWhile Char.isDigit
  let rest := signRest.2.drop intPart.length
  match rest with
  | [] =>
      if intPart.isEmpty then none
      else some ⟨signRest.1 * digitsVal intPart, 0⟩
  | '.' :: fracPart =>
      if fracPart.all Char.isDigit ∧ (intPart ≠ [] ∨ fracPart ≠ []) then
        some ⟨signRest.1 *
          (digitsVal intPart * 10 ^ fracPart.length + digitsVal fracPart),
          fracPart.length⟩
      else none
  | _ => none

/-- The sentinel strings excluded from the pressure columns. -/
def pressureSentinels : List (List Char) := ["NO_PUB".toList, "NO_PROV".toList]

/-- Model of `filter_time_and_pressure_data` from `matchdepth.py`. With
`filter_columns = true` the function reads the local `filtered_df` before any
assignment to it and raises `UnboundLocalError` (a subclass of `NameError`),
modelled as `none`. With `filter_columns = false` it keeps the rows whose two
pressure columns are not sentinels and whose `rov_pressure` converts to a
positive float (the parsed decimal is positive exactly when its mantissa is,
see `DecVal.toRat_pos`); an unconvertible `rov_pressure` among the surviving
rows raises `ValueError` (also `none`). -/
def filter_time_and_pressure_data (df : List PressureRow) (filter_columns : Bool) :
    Option (List PressureRow) :=
  if filter_columns then none
  else
    let step1 := df.filter (fun r =>
      !(pressureSentinels.contains r.rov_ctd_pressure)
        && !(pressureSentinels.contains r.rov_pressure))
    if step1.all (fun r => (parseFloat? r.rov_pressure).isSome) then
      some (step1.filter (fun r =>
        decide (0 < ((parseFloat? r.rov_pressure).getD ⟨0, 0⟩).mantissa)))
    else none

/-! ## Model of `change-path.py` -/

/-- A row of a detection CSV: the `image_path` cell and the remaining cells. -/
structure CsvRow where
  image_path : List Char
  others : List (List Char)
deriving DecidableEq

/-- A CSV file of the folder: its name, whether it has an `image_path`
column, and its rows. -/
structure CsvFile where
  filename : List Char
  has_image_path : Bool
  rows : List CsvRow
deriving DecidableEq

/-- The per-file rewrite of `change_image_paths`: every row's `image_path`
cell becomes the join of the new base path with the basename of the old
value; all other cells are unchanged. -/
def processCsvFile (new_image_path : List Char) (f : CsvFile) : CsvFile :=
  ⟨f.filename, f.has_image_path,
    f.rows.map (fun r => ⟨joinPath new_image_path (basename r.image_path), r.others⟩)⟩

/-- Model of `change_image_paths` from `change-path.py`: iterate over the
folder in listing order, rewriting each file whose name ends in `.csv`. The
`try` block encloses the whole loop, so the first failing file (one without
an `image_path` column, raising `KeyError`) aborts the loop: the exception is
caught outside the loop, a message is printed, and the function returns with
the failing file and every file after it untouched. -/
def change_image_paths (folder : List CsvFile) (new_image_path : List Char) :
    List CsvFile :=
  match folder with
  | [] => []
  | f :: rest =>
      if ".csv".toList.isSuffixOf f.filename then
        if f.has_image_path then
          processCsvFile new_image_path f :: change_image_paths rest new_image_path
        else f :: rest
      else f :: change_image_paths rest new_image_path

/-! ## Model of `choosing-data.py` -/

/-- The recognized image extensions of `choosing-data.py`. -/
def image_extensions : List (List Char) :=
  [".png".toList, ".jpg".toList, ".jpeg".toList, ".gif".toList,
    ".bmp".toList, ".tiff".toList]

/-- Python `file[-4:]`: the last (at most) four characters of the name. -/
def last4 (file : List Char) : List Char := file.drop (file.length - 4)

/-- Lower-case a file name, as `file.lower()`. -/
def lowerName (file : List Char) : List Char := file.map Char.toLower

/-- The filter of `get_all_images` in `choosing-data.py`:
`file.lower().endswith(image_extensions) and file.startswith('CFE') and
file.endswith('m' + file[-4:])`. -/
def imageNameFilter (file : List Char) : Bool :=
  image_extensions.any (fun e => e.isSuffixOf (lowerName file))
    && "CFE".toList.isPrefixOf file
    && ('m' :: last4 file).isSuffixOf file

/-- Model of `get_all_images` from `choosing-data.py`: walk the directory
(given as the list of (root, filename) pairs in walk order) and return the
joined paths of the file names passing `imageNameFilter`. -/
def get_all_images (tree : List (List Char × List Char)) : List (List Char) :=
  (tree.filter (fun rf => imageNameFilter rf.2)).map (fun rf => joinPath rf.1 rf.2)

/-- Following the words of claim C6, for comparison with `imageNameFilter`:
a recognized image extension (case-insensitively), the prefix `CFE`, and the
depth marker `m` immediately before the extension. -/
def specImageNameFilter (file : List Char) : Bool :=
  image_extensions.any (fun e =>
      e.isSuffixOf (lowerName file) && ('m' :: e).isSuffixOf (lowerName file))
    && "CFE".toList.isPrefixOf file

/-! ## Model of `videos2frames.py` -/

/-- The outcome of `extract_frames`: the indices of the frames written, and
whether the run aborted with `ZeroDivisionError`. -/
structure ExtractResult where
  saved : List Nat
  zeroDivError : Bool
deriving DecidableEq

/-- Model of `extract_frames` from `videos2frames.py` on a video with `fps`
frames per second and `total` frames: the sampling interval is
`fps // frame_rate` and frame `count` is written iff `count % interval = 0`.
A zero `frame_rate` makes the interval computation itself raise
`ZeroDivisionError`; a zero interval makes `count % interval` raise it at the
first frame read, so no frame is ever written. -/
def extract_frames (fps frame_rate total : Nat) : ExtractResult :=
  if frame_rate = 0 then ⟨[], true⟩
  else
    let frame_interval := fps / frame_rate
    if frame_interval = 0 then ⟨[], decide (0 < total)⟩
    else ⟨(List.range total).filter (fun c => c % frame_interval == 0), false⟩

/-! ## Concrete test data -/

/-- Two log rows for concrete checks. -/
def df1Test : List LogRow := [⟨100 * nsPerSec, 5, []⟩, ⟨10 * nsPerSec, 7, []⟩]

/-- One image row for concrete checks. -/
def df2Test : List ImgRow := [⟨13 * nsPerSec, "a".toList⟩]

/-- A CSV file without the `image_path` column. -/
def badCsv : CsvFile := ⟨"a.csv".toList, false, [⟨"/old/img1.png".toList, []⟩]⟩

/-- A CSV file with the `image_path` column. -/
def goodCsv : CsvFile :=
  ⟨"b.csv".toList, true, [⟨"/old/img2.png".toList, ["k".toList]⟩]⟩

/-- A non-CSV file sitting in the folder. -/
def nonCsv : CsvFile := ⟨"c.txt".toList, true, [⟨"/old/img3.png".toList, []⟩]⟩

/-- Pressure rows for concrete checks: a sentinel row, a positive row, a
negative row and a zero row. -/
def pressureRowsTest : List PressureRow :=
  [⟨"NO_PUB".toList, "5".toList⟩, ⟨"10.2".toList, "3.5".toList⟩,
    ⟨"8".toList, "-2".toList⟩, ⟨"7".toList, "0.0".toList⟩]

/-- Raw log lines for concrete checks: a comment line, a well-formed entry, a
short entry, and an entry whose date does not parse. -/
def rawLogLinesTest : List (List Char) :=
  ["#LOG loghost.system_utc".toList,
    "a, b, c, d, e, f, g, h, i, j, k, l, m, n, o, p, 2024, 234, 12:34:56, +0000".toList,
    "too, short".toList,
    "a, b, c, d, e, f, g, h, i, j, k, l, m, n, o, p, 2024, 234, banana, +0000".toList]

/-- A filesystem that already holds the output MP4 of `r/v.avi`. -/
def fsTest : FS := [("o/v.mp4".toList, "c".toList)]

/-! ## Supporting lemmas -/

theorem takeWhile_append_cons {p : Char → Bool} (l₁ : List Char) (a : Char)
    (l₂ : List Char) (h₁ : ∀ x ∈ l₁, p x = true) (ha : p a = false) :
    (l₁ ++ a :: l₂).takeWhile p = l₁ := by
  induction l₁ with
  | nil => simp [List.takeWhile_cons, ha]
  | cons x xs ih =>
      have hx : p x = true := h₁ x (by simp)
      simp only [List.cons_append, List.takeWhile_cons, hx, if_true]
      rw [ih (fun y hy => h₁ y (by simp [hy]))]

theorem takeWhile_eq_self {p : Char → Bool} (l : List Char)
    (h : ∀ x ∈ l, p x = true) : l.takeWhile p = l := by
  induction l with
  | nil => rfl
  | cons x xs ih =>
      have hx : p x = true := h x (by simp)
      simp only [List.takeWhile_cons, hx, if_true]
      rw [ih (fun y hy => h y (by simp [hy]))]

theorem slash_not_mem_basename (p : List Char) : '/' ∉ basename p := by
  intro hmem
  unfold basename at hmem
  have h1 : '/' ∈ p.reverse.takeWhile (fun c => c != '/') :=
    (List.mem_reverse).1 hmem
  have := List.mem_takeWhile_imp h1
  simp at this

theorem basename_of_not_mem (p : List Char) (h : '/' ∉ p) : basename p = p := by
  unfold basename
  rw [takeWhile_eq_self, List.reverse_reverse]
  intro x hx
  simp only [bne_iff_ne, ne_eq, decide_eq_true_eq]
  intro hEq
  exact h (hEq ▸ (List.mem_reverse).1 hx)

theorem basename_append_cons (l n : List Char) (h : '/' ∉ n) :
    basename (l ++ '/' :: n) = n := by
  unfold basename
  have hsh : (l ++ '/' :: n).reverse = n.reverse ++ '/' :: l.reverse := by
    simp
  rw [hsh, takeWhile_append_cons _ _ _ ?_ (by simp), List.reverse_reverse]
  intro x hx
  simp only [bne_iff_ne, ne_eq, decide_eq_true_eq]
  intro hEq
  exact h (hEq ▸ (List.mem_reverse).1 hx)

theorem basename_joinPath (a n : List Char) (hne : n ≠ []) (h : '/' ∉ n) :
    basename (joinPath a n) = n := by
  unfold joinPath
  have hhead : ¬ n.head? = some '/' := by
    cases n with
    | nil => simp
    | cons c t =>
        simp only [List.head?_cons, Option.some.injEq]
        intro hc
        exact h (hc ▸ List.mem_cons_self c t)
  rw [if_neg hhead]
  split_ifs with h2
  · rcases h2 with ha | ha
    · subst ha
      simpa using basename_of_not_mem n h
    · have hane : a ≠ [] := by
        intro hnil
        rw [hnil] at ha
        simp at ha
      have hlast : a.getLast hane = '/' := by
        have h3 := List.getLast?_eq_getLast a hane
        rw [h3] at ha
        exact Option.some_inj.mp ha
      have hdecomp : a = a.dropLast ++ ['/'] := by
        conv_lhs => rw [← List.dropLast_append_getLast hane]
        rw [hlast]
      rw [hdecomp, List.append_assoc, List.singleton_append]
      exact basename_append_cons _ _ h
  · exact basename_append_cons a n h

theorem splitextBase_append (x e : List Char) (he : '.' ∉ e)
    (hx : x.any (fun c => c != '.') = true) :
    splitextBase (x ++ '.' :: e) = (x, '.' :: e) := by
  unfold splitextBase
  have hr : (x ++ '.' :: e).reverse = e.reverse ++ '.' :: x.reverse := by simp
  have htw : (e.reverse ++ '.' :: x.reverse).takeWhile (fun c => c != '.') =
      e.reverse := by
    refine takeWhile_append_cons _ _ _ ?_ (by simp)
    intro c hc
    simp only [bne_iff_ne, ne_eq, decide_eq_true_eq]
    intro hEq
    exact he (hEq ▸ (List.mem_reverse).1 hc)
  simp only [hr, htw]
  have hlen : ¬ e.reverse.length = (e.reverse ++ '.' :: x.reverse).length := by
    simp
  rw [if_neg hlen]
  have hdrop : (e.reverse ++ '.' :: x.reverse).drop (e.reverse.length + 1) =
      x.reverse := by
    have : e.reverse ++ '.' :: x.reverse = (e.reverse ++ ['.']) ++ x.reverse := by
      simp
    rw [this]
    have hl : (e.reverse ++ ['.']).length = e.reverse.length + 1 := by simp
    rw [← hl, List.drop_left]
  rw [hdrop, List.reverse_reverse, if_pos hx, List.reverse_reverse]

theorem splitextBase_fst_mem (b : List Char) :
    ∀ c ∈ (splitextBase b).1, c ∈ b := by
  intro c hc
  unfold splitextBase at hc
  by_cases h1 : (b.reverse.takeWhile (fun c => c != '.')).length = b.reverse.length
  · rw [if_pos h1] at hc
    exact hc
  · rw [if_neg h1] at hc
    by_cases h2 : ((b.reverse.drop
        ((b.reverse.takeWhile (fun c => c != '.')).length + 1)).reverse).any
        (fun c => c != '.') = true
    · rw [if_pos h2] at hc
      have := (List.mem_reverse).1 hc
      have := List.mem_of_mem_drop this
      exact (List.mem_reverse).1 this
    · rw [if_neg h2] at hc
      exact hc

theorem DecVal.toRat_pos (v : DecVal) : 0 < v.toRat ↔ 0 < v.mantissa := by
  unfold DecVal.toRat
  have hp : (0 : ℚ) < 10 ^ v.scale := by positivity
  rw [lt_div_iff₀ hp, zero_mul, Int.cast_pos]

theorem m_marker_iff (file : List Char) (h5 : 5 ≤ file.length) :
    (('m' :: last4 file).isSuffixOf file = true) ↔
      file.getD (file.length - 5) ' ' = 'm' := by
  rw [List.isSuffixOf_iff_suffix, List.suffix_iff_eq_drop]
  have hlen : ('m' :: last4 file).length = 5 := by
    simp only [last4, List.length_cons, List.length_drop]
    omega
  rw [hlen]
  have hidx : file.length - 5 < file.length := by omega
  have hdrop : file.drop (file.length - 5) =
      file.get ⟨file.length - 5, hidx⟩ :: file.drop (file.length - 4) := by
    have h45 : file.length - 5 + 1 = file.length - 4 := by omega
    rw [← h45]
    exact (List.get_cons_drop file ⟨file.length - 5, hidx⟩).symm
  have hgetD : file.getD (file.length - 5) ' ' =
      file.get ⟨file.length - 5, hidx⟩ := List.getD_eq_get file ' ' hidx
  rw [hdrop, hgetD]
  constructor
  · intro heq
    injection heq with h1 h2
    exact h1.symm
  · intro heq
    rw [heq]
    simp [last4]

example : basename "a/b/c.jpg".toList = "c.jpg".toList := by decide
example : dirname "a/b/c.jpg".toList = "a/b".toList := by decide
example : splitextBase "c.tar.gz".toList = ("c.tar".toList, ".gz".toList) := by decide
example : splitextBase ".bashrc".toList = (".bashrc".toList, "".toList) := by decide
example : joinPath "a/b".toList "c.jpg".toList = "a/b/c.jpg".toList := by decide
example :
    rename_step "d/CFE_x.jpg".toList "12.5".toList = some "d/CFE_x_12.5m.jpg".toList := by
  decide
example : rename_step "d/CFE_x_12.5m.jpg".toList "7".toList = none := by decide
example :
    convert_avi_to_mp4 [] "r/v.avi".toList "o".toList =
      ([("o/v.mp4".toList, "h264:r/v.avi".toList)], "o/v.mp4".toList) := by decide

example :
    parse_log_date "2024".toList "234".toList "12:34:56".toList "+0000".toList =
      some ⟨2024, 234, 12, 34, 56, 0⟩ := by decide
example : parse_log_date "2024".toList "5".toList " 2:03:04 ".toList "-0730".toList =
    some ⟨2024, 5, 2, 3, 4, -450⟩ := by decide
example :
    parse_log_date "2024".toList "367".toList "12:34:56".toList "+0000".toList =
      none := by decide
example :
    parse_log_date "24".toList "234".toList "12:34:56".toList "+0000".toList =
      none := by decide
example :
    parse_log_date "2024".toList "234".toList "12:64:56".toList "+0000".toList =
      none := by decide
example :
    parse_log_date "2024".toList "234".toList "12:34:56".toList "PDT".toList =
      none := by decide

example : parseFloat? "12.5".toList = some ⟨125, 1⟩ := by decide
example : parseFloat? "-3".toList = some ⟨-3, 0⟩ := by decide
example : parseFloat? " 0.25 ".toList = some ⟨25, 2⟩ := by decide
example : parseFloat? "NO_POS".toList = none := by decide
example : parseFloat? "".toList = none := by decide
example : parseFloat? ".5".toList = some ⟨5, 1⟩ := by decide
example : splitCommaSpace "a, b,c, ".toList =
    ["a".toList, "b,c".toList, "".toList] := by decide

example : extract_frames 29 1 5 = ⟨[0], false⟩ := by decide
example : extract_frames 29 10 7 = ⟨[0, 2, 4, 6], false⟩ := by decide
example : extract_frames 5 10 7 = ⟨[], true⟩ := by decide
example : extract_frames 5 10 0 = ⟨[], false⟩ := by decide

example : imageNameFilter "CFE_1m.jpg".toList = true := by decide
example : imageNameFilter "CFE_1m.tiff".toList = false := by decide
example : specImageNameFilter "CFE_1m.tiff".toList = true := by decide
example : imageNameFilter "CFE_1.jpg".toList = false := by decide
example : imageNameFilter "XFE_1m.jpg".toList = false := by decide
example : imageNameFilter "CFE_1m.JPG".toList = true := by decide

example :
    find_matching_timestamps
      [⟨100 * nsPerSec, 5, []⟩, ⟨10 * nsPerSec, 7, []⟩]
      [⟨13 * nsPerSec, "a".toList⟩, ⟨50 * nsPerSec, "b".toList⟩]
      0 8 false =
    some [(10 * nsPerSec, Sum.inr 7, 13 * nsPerSec, "a".toList)] := by decide

example :
    find_matching_timestamps [] [⟨13 * nsPerSec, "a".toList⟩] 0 8 false = none := by
  decide

example : diffSec (10 * nsPerSec) (13 * nsPerSec) = 3 := by decide
example : diffSec (10 * nsPerSec) (13 * nsPerSec + 500000000) = 4 := by decide
example : diffSec (13 * nsPerSec + 500000000) (10 * nsPerSec) = 3 := by decide
example : diffSec (10 * nsPerSec) (18 * nsPerSec + 500000000) = 9 := by decide
example : diffSec (18 * nsPerSec + 500000000) (10 * nsPerSec) = 8 := by decide

theorem parseEntriesLoop_eq (es : List (List Char)) :
    parseEntriesLoop es =
      (((es.filter (fun e => decide (20 ≤ (splitCommaSpace e).length))).map
        (fun e => (⟨splitCommaSpace e, entryDate (splitCommaSpace e)⟩ : LogLine))),
       es.filter (fun e => decide ((splitCommaSpace e).length < 20))) := by
  induction es with
  | nil => rfl
  | cons e rest ih =>
      simp only [parseEntriesLoop, ih]
      by_cases h : 20 ≤ (splitCommaSpace e).length
      · rw [if_pos h]
        simp [List.filter_cons, h, Nat.not_lt.2 h]
      · rw [if_neg h]
        simp [List.filter_cons, h, Nat.lt_of_not_le h]

/-! ## Claim C1 -/

/-- C1: for a non-empty log table the result is the list of per-image
contributions in image order; an image contributes a pair exactly when the
minimal absolute whole-second difference between the log timestamps and its
offset-adjusted timestamp is at most the threshold (source default 8), and a
contributed pair pairs the image with a log record attaining that minimal
difference. -/
theorem C1_nearest_neighbour (df1 : List LogRow) (df2 : List ImgRow)
    (defase : Int) (threshold : Nat) (raw : Bool) (h1 : df1 ≠ [])
    (i : Fin df2.length) :
    find_matching_timestamps df1 df2 defase threshold raw =
        some (df2.filterMap (matchStep df1 defase threshold raw)) ∧
    ((matchStep df1 defase threshold raw (df2.get i)).isSome = true ↔
      ∃ j : Fin df1.length,
        (∀ k : Fin df1.length,
          imgDiff df1 defase (df2.get i) j ≤ imgDiff df1 defase (df2.get i) k) ∧
        imgDiff df1 defase (df2.get i) j ≤ threshold) ∧
    ∀ t, matchStep df1 defase threshold raw (df2.get i) = some t →
      ∃ j : Fin df1.length,
        (∀ k : Fin df1.length,
          imgDiff df1 defase (df2.get i) j ≤ imgDiff df1 defase (df2.get i) k) ∧
        imgDiff df1 defase (df2.get i) j ≤ threshold ∧
        t = ((df1.get j).timestamp, matchDepth raw (df1.get j),
          (df2.get i).iso_datetime, (df2.get i).path) := by
  have hlen : df1.length ≠ 0 := by
    intro h
    exact h1 (List.length_eq_zero.1 h)
  have hfin : List.finRange df1.length ≠ [] := by
    intro h
    have h2 := congrArg List.length h
    simp only [List.length_finRange, List.length_nil] at h2
    exact hlen h2
  obtain ⟨j0, hj0⟩ : ∃ j0, (List.finRange df1.length).argmin
      (imgDiff df1 defase (df2.get i)) = some j0 := by
    cases h : (List.finRange df1.length).argmin (imgDiff df1 defase (df2.get i)) with
    | none => exact absurd (List.argmin_eq_none.1 h) hfin
    | some j => exact ⟨j, rfl⟩
  have hmin : ∀ k : Fin df1.length,
      imgDiff df1 defase (df2.get i) j0 ≤ imgDiff df1 defase (df2.get i) k :=
    fun k => List.le_of_mem_argmin (List.mem_finRange k) (Option.mem_def.2 hj0)
  have hie : df1.isEmpty = false := by
    cases df1 with
    | nil => exact absurd rfl h1
    | cons a l => rfl
  have hstep_eq : matchStep df1 defase threshold raw (df2.get i) =
      if imgDiff df1 defase (df2.get i) j0 ≤ threshold then
        some ((df1.get j0).timestamp, matchDepth raw (df1.get j0),
          (df2.get i).iso_datetime, (df2.get i).path)
      else none := by
    unfold matchStep
    rw [hj0]
  refine ⟨?_, ?_, ?_⟩
  · unfold find_matching_timestamps
    rw [if_neg (by rw [hie]; simp)]
  · rw [hstep_eq]
    by_cases hle : imgDiff df1 defase (df2.get i) j0 ≤ threshold
    · rw [if_pos hle]
      constructor
      · intro _
        exact ⟨j0, hmin, hle⟩
      · intro _
        rfl
    · rw [if_neg hle]
      constructor
      · intro h
        simp at h
      · rintro ⟨j, hjmin, hjle⟩
        exact absurd (le_trans (hmin j) hjle) hle
  · intro t ht
    rw [hstep_eq] at ht
    by_cases hle : imgDiff df1 defase (df2.get i) j0 ≤ threshold
    · rw [if_pos hle] at ht
      exact ⟨j0, hmin, hle, (Option.some_inj.1 ht).symm⟩
    · rw [if_neg hle] at ht
      exact absurd ht (by simp)

/-- C1 witness: a concrete image within the threshold of its nearest log
record contributes a match. -/
theorem C1_nearest_neighbour_witness :
    (matchStep df1Test 0 8 false (⟨13 * nsPerSec, "a".toList⟩ : ImgRow)).isSome
      = true := by
  have h := C1_nearest_neighbour df1Test df2Test 0 8 false (by decide)
    ⟨0, by decide⟩
  exact h.2.1.mpr ⟨⟨1, by decide⟩, by decide, by decide⟩

/-! ## Claim C2 -/

/-- C2: every tuple of the result reports the log row's own unshifted
timestamp together with the image's unadjusted timestamp and path, while the
log row is selected by minimizing `imgDiff`, the distance taken against the
image timestamp shifted by `defase` seconds through `add_seconds`. -/
theorem C2_reported_values (df1 : List LogRow) (df2 : List ImgRow)
    (defase : Int) (threshold : Nat) (raw : Bool) (res : List MatchTuple)
    (hres : find_matching_timestamps df1 df2 defase threshold raw = some res) :
    ∀ t ∈ res, ∃ (i : Fin df2.length) (j : Fin df1.length),
      (List.finRange df1.length).argmin (imgDiff df1 defase (df2.get i)) =
          some j ∧
      imgDiff df1 defase (df2.get i) j =
        diffSec (df1.get j).timestamp
          (add_seconds (df2.get i).iso_datetime defase) ∧
      imgDiff df1 defase (df2.get i) j ≤ threshold ∧
      t = ((df1.get j).timestamp, matchDepth raw (df1.get j),
        (df2.get i).iso_datetime, (df2.get i).path) := by
  intro t ht
  have hres' : res = df2.filterMap (matchStep df1 defase threshold raw) := by
    unfold find_matching_timestamps at hres
    by_cases hcond : (df1.isEmpty && !df2.isEmpty) = true
    · rw [if_pos hcond] at hres
      exact absurd hres (by simp)
    · rw [if_neg hcond] at hres
      exact (Option.some_inj.1 hres).symm
  rw [hres'] at ht
  rcases List.mem_filterMap.1 ht with ⟨img, hmem, hstep⟩
  rcases List.mem_iff_get.1 hmem with ⟨i, rfl⟩
  refine ⟨i, ?_⟩
  cases harg : (List.finRange df1.length).argmin (imgDiff df1 defase (df2.get i)) with
  | none =>
      have hnone : matchStep df1 defase threshold raw (df2.get i) = none := by
        unfold matchStep
        rw [harg]
      rw [hnone] at hstep
      exact absurd hstep (by simp)
  | some j =>
      have hstep_eq : matchStep df1 defase threshold raw (df2.get i) =
          if imgDiff df1 defase (df2.get i) j ≤ threshold then
            some ((df1.get j).timestamp, matchDepth raw (df1.get j),
              (df2.get i).iso_datetime, (df2.get i).path)
          else none := by
        unfold matchStep
        rw [harg]
      rw [hstep_eq] at hstep
      by_cases hle : imgDiff df1 defase (df2.get i) j ≤ threshold
      · rw [if_pos hle] at hstep
        exact ⟨j, rfl, rfl, hle, (Option.some_inj.1 hstep).symm⟩
      · rw [if_neg hle] at hstep
        exact absurd hstep (by simp)

/-- C2 witness: the concrete match reports the log timestamp, the unadjusted
image timestamp and the image path. -/
theorem C2_reported_values_witness :
    ∃ (i : Fin df2Test.length) (j : Fin df1Test.length),
      (List.finRange df1Test.length).argmin (imgDiff df1Test 0 (df2Test.get i)) =
          some j ∧
      imgDiff df1Test 0 (df2Test.get i) j =
        diffSec (df1Test.get j).timestamp
          (add_seconds (df2Test.get i).iso_datetime 0) ∧
      imgDiff df1Test 0 (df2Test.get i) j ≤ 8 ∧
      ((10 * nsPerSec : Int), (Sum.inr 7 : List Char ⊕ ℚ),
          (13 * nsPerSec : Int), "a".toList) =
        ((df1Test.get j).timestamp, matchDepth false (df1Test.get j),
          (df2Test.get i).iso_datetime, (df2Test.get i).path) :=
  C2_reported_values df1Test df2Test 0 8 false
    [(10 * nsPerSec, Sum.inr 7, 13 * nsPerSec, "a".toList)] (by decide)
    (10 * nsPerSec, Sum.inr 7, 13 * nsPerSec, "a".toList)
    (List.mem_singleton.2 rfl)

/-! ## Claim C3 -/

/-- C3: a matched image whose base name already ends in `m` is skipped; one
whose base name does not is renamed within its original directory to the base
name plus underscore, depth and `m`, before the original extension; and the
renamed name of a `.jpg` match ends in `m` before its extension again, so a
second pass skips it and no file ever receives a second depth suffix. -/
theorem C3_rename_once (path depth depth2 : List Char) :
    ((splitextBase (basename path)).1.getLast? = some 'm' →
      rename_step path depth = none) ∧
    (¬ (splitextBase (basename path)).1.getLast? = some 'm' →
      rename_step path depth =
        some (joinPath (dirname path)
          ((splitextBase (basename path)).1 ++ '_' ::
            (depth ++ 'm' :: (splitextBase (basename path)).2)))) ∧
    ∀ newPath, rename_step path depth = some newPath →
      (splitextBase (basename path)).2 = ".jpg".toList → '/' ∉ depth →
      rename_step newPath depth2 = none := by
  refine ⟨?_, ?_, ?_⟩
  · intro hm
    unfold rename_step
    rw [if_pos hm]
  · intro hm
    unfold rename_step
    rw [if_neg hm]
  · intro newPath hsome hext hdep
    by_cases hm : (splitextBase (basename path)).1.getLast? = some 'm'
    · unfold rename_step at hsome
      rw [if_pos hm] at hsome
      exact absurd hsome (by simp)
    · unfold rename_step at hsome
      rw [if_neg hm] at hsome
      have hnew : newPath = joinPath (dirname path)
          ((splitextBase (basename path)).1 ++ '_' ::
            (depth ++ 'm' :: (splitextBase (basename path)).2)) :=
        (Option.some_inj.1 hsome).symm
      set orig := (splitextBase (basename path)).1 with horig
      set nm : List Char := orig ++ '_' :: (depth ++ 'm' :: ".jpg".toList)
        with hnm
      have hnew' : newPath = joinPath (dirname path) nm := by
        rw [hnew, hext]
      have hsl_orig : '/' ∉ orig := by
        intro hc
        exact slash_not_mem_basename path (splitextBase_fst_mem _ _ hc)
      have hne : nm ≠ [] := by simp [hnm]
      have hsl : '/' ∉ nm := by
        intro hc
        rw [hnm] at hc
        rcases List.mem_append.1 hc with h | h
        · exact hsl_orig h
        · rcases List.mem_cons.1 h with h | h
          · exact absurd h (by decide)
          · rcases List.mem_append.1 h with h | h
            · exact hdep h
            · rcases List.mem_cons.1 h with h | h
              · exact absurd h (by decide)
              · exact absurd h (by decide)
      have hb : basename newPath = nm := by
        rw [hnew']
        exact basename_joinPath _ _ hne hsl
      have hshape : nm = (orig ++ '_' :: (depth ++ ['m'])) ++
          '.' :: "jpg".toList := by
        simp [hnm]
      have hsplit : splitextBase nm =
          (orig ++ '_' :: (depth ++ ['m']), '.' :: "jpg".toList) := by
        rw [hshape]
        apply splitextBase_append
        · decide
        · exact List.any_eq_true.2 ⟨'m', by simp, by decide⟩
      have hlast : (splitextBase (basename newPath)).1.getLast? = some 'm' := by
        rw [hb, hsplit]
        show (orig ++ '_' :: (depth ++ ['m'])).getLast? = some 'm'
        have hsh : orig ++ '_' :: (depth ++ ['m']) =
            (orig ++ '_' :: depth) ++ ['m'] := by simp
        rw [hsh]
        exact List.getLast?_concat _
      unfold rename_step
      rw [if_pos hlast]

/-- C3 witness: a concrete `.jpg` match is renamed with a depth suffix, and
renaming the renamed file is skipped. -/
theorem C3_rename_once_witness :
    rename_step "d/CFE_x.jpg".toList "12.5".toList =
        some "d/CFE_x_12.5m.jpg".toList ∧
    rename_step "d/CFE_x_12.5m.jpg".toList "7".toList = none := by
  have h := C3_rename_once "d/CFE_x.jpg".toList "12.5".toList "7".toList
  have h2 : rename_step "d/CFE_x.jpg".toList "12.5".toList =
      some "d/CFE_x_12.5m.jpg".toList := (h.2.1 (by decide)).trans (by decide)
  exact ⟨h2, h.2.2 "d/CFE_x_12.5m.jpg".toList h2 (by decide) (by decide)⟩

/-! ## Claim C7 -/

/-- C7: the rows of the parsed raw log are exactly the stripped non-comment
lines with at least 20 comma-separated fields, in order, each keeping all its
fields with its parsed date appended (`none`, a missing `parsed_datetime`,
when the date fails to parse), and the printed error lines are exactly the
entries with fewer than 20 fields, in order; every well-formed entry thus
appears as a row of the dataframe. -/
theorem C7_log_error_handling (lines : List (List Char)) :
    (parse_log_file_to_dataframe lines).1 =
      ((logEntries lines).filter
        (fun e => decide (20 ≤ (splitCommaSpace e).length))).map
        (fun e => (⟨splitCommaSpace e, entryDate (splitCommaSpace e)⟩ : LogLine)) ∧
    (parse_log_file_to_dataframe lines).2 =
      (logEntries lines).filter
        (fun e => decide ((splitCommaSpace e).length < 20)) ∧
    ∀ e ∈ logEntries lines, 20 ≤ (splitCommaSpace e).length →
      (⟨splitCommaSpace e, entryDate (splitCommaSpace e)⟩ : LogLine) ∈
        (parse_log_file_to_dataframe lines).1 := by
  unfold parse_log_file_to_dataframe
  rw [parseEntriesLoop_eq]
  refine ⟨rfl, rfl, ?_⟩
  intro e he hlen
  exact List.mem_map_of_mem _ (List.mem_filter.2 ⟨he, by simpa using hlen⟩)

/-- C7 witness: on concrete raw lines the short entry is reported as an
error, the well-formed entry is parsed, and the entry with a bad date is kept
with a missing `parsed_datetime`. -/
theorem C7_log_error_handling_witness :
    (parse_log_file_to_dataframe rawLogLinesTest).2 = ["too, short".toList] ∧
    (parse_log_file_to_dataframe rawLogLinesTest).1.map
        LogLine.parsed_datetime =
      [some ⟨2024, 234, 12, 34, 56, 0⟩, none] := by
  have h := C7_log_error_handling rawLogLinesTest
  refine ⟨h.2.1.trans (by decide), ?_⟩
  rw [h.1]
  decide

/-! ## Claim C8 -/

/-- C8: with `filter_columns = true` the function reads the local
`filtered_df` before assignment and fails with `UnboundLocalError` (a
`NameError`), modelled as `none`; with `filter_columns = false`, whenever the
non-sentinel `rov_pressure` values convert to floats, it returns exactly the
rows whose two pressure columns are not `NO_PUB`/`NO_PROV` and whose
`rov_pressure`, read as a number, is strictly positive. -/
theorem C8_filter_totality (df : List PressureRow)
    (hparse : ∀ r ∈ df,
      (!(pressureSentinels.contains r.rov_ctd_pressure)
        && !(pressureSentinels.contains r.rov_pressure)) = true →
      (parseFloat? r.rov_pressure).isSome = true) :
    filter_time_and_pressure_data df true = none ∧
    filter_time_and_pressure_data df false =
      some (df.filter (fun r =>
        !(pressureSentinels.contains r.rov_ctd_pressure)
          && !(pressureSentinels.contains r.rov_pressure)
          && decide (0 < ((parseFloat? r.rov_pressure).getD ⟨0, 0⟩).toRat))) := by
  refine ⟨rfl, ?_⟩
  unfold filter_time_and_pressure_data
  rw [if_neg (by simp)]
  have hall : ((df.filter (fun r =>
      !(pressureSentinels.contains r.rov_ctd_pressure)
        && !(pressureSentinels.contains r.rov_pressure))).all
      (fun r => (parseFloat? r.rov_pressure).isSome)) = true := by
    rw [List.all_eq_true]
    intro r hr
    have hm := List.mem_filter.1 hr
    exact hparse r hm.1 hm.2
  rw [if_pos hall]
  congr 1
  rw [List.filter_filter]
  apply List.filter_congr
  intro r hr
  by_cases hs : (!(pressureSentinels.contains r.rov_ctd_pressure)
      && !(pressureSentinels.contains r.rov_pressure)) = true
  · rcases Option.isSome_iff_exists.1 (hparse r hr hs) with ⟨v, hv⟩
    rw [hs, hv]
    simp only [Option.getD_some, Bool.true_and, Bool.and_true]
    exact decide_eq_decide.2 (DecVal.toRat_pos v).symm
  · have hs' : (!(pressureSentinels.contains r.rov_ctd_pressure)
        && !(pressureSentinels.contains r.rov_pressure)) = false := by
      simpa using hs
    rw [hs']
    simp

/-- C8 witness: the `filter_columns = true` call fails on concrete rows. -/
theorem C8_filter_totality_witness :
    filter_time_and_pressure_data pressureRowsTest true = none :=
  (C8_filter_totality pressureRowsTest (by decide)).1

/-! ## Claim C4 -/

/-- C4 counterexample: with the first CSV file lacking the `image_path`
column, `change_image_paths` returns the second file untouched even though
processing it would have changed it — so, contrary to the claim, processing
does not continue with the remaining CSV files after a failure. -/
theorem C4_counterexample :
    change_image_paths [badCsv, goodCsv] "/new".toList = [badCsv, goodCsv] ∧
    processCsvFile "/new".toList goodCsv ≠ goodCsv := by decide

/-- C4 (amended): a failure while processing one CSV file is caught and a
message is printed, but the handler encloses the whole loop, so processing
stops there: files listed before the failing one keep their rewritten paths,
while the failing file and every file after it are left unprocessed. -/
theorem C4_stop_on_failure (pre post : List CsvFile) (bad : CsvFile)
    (new_image_path : List Char)
    (hpre : ∀ f ∈ pre,
      ".csv".toList.isSuffixOf f.filename = false ∨ f.has_image_path = true)
    (hcsv : ".csv".toList.isSuffixOf bad.filename = true)
    (hnocol : bad.has_image_path = false) :
    change_image_paths (pre ++ bad :: post) new_image_path =
      pre.map (fun f =>
        if ".csv".toList.isSuffixOf f.filename then
          processCsvFile new_image_path f
        else f) ++ bad :: post := by
  induction pre with
  | nil =>
      simp only [List.nil_append, List.map_nil, change_image_paths]
      rw [if_pos hcsv, if_neg (by rw [hnocol]; simp)]
  | cons f rest ih =>
      have hrest : ∀ g ∈ rest,
          ".csv".toList.isSuffixOf g.filename = false ∨ g.has_image_path = true :=
        fun g hg => hpre g (by simp [hg])
      simp only [List.cons_append, change_image_paths, List.map_cons,
        List.append_eq]
      by_cases hc : ".csv".toList.isSuffixOf f.filename = true
      · have hyes : f.has_image_path = true := by
          rcases hpre f (by simp) with hno | hyes
          · rw [hc] at hno
            exact absurd hno (by simp)
          · exact hyes
        rw [if_pos hc, if_pos hyes, if_pos hc, ih hrest]
      · rw [if_neg hc, if_neg hc, ih hrest]

/-- C4 witness: a concrete folder where the file before the failure is
rewritten and the files from the failure on are untouched. -/
theorem C4_stop_on_failure_witness :
    change_image_paths [goodCsv, badCsv, goodCsv] "/new".toList =
      [processCsvFile "/new".toList goodCsv, badCsv, goodCsv] := by
  have h := C4_stop_on_failure [goodCsv] [goodCsv] badCsv "/new".toList
    (by decide) (by decide) (by decide)
  exact h.trans (by decide)

/-! ## Claim C5 -/

/-- C5: when every CSV file of the folder has the `image_path` column,
`change_image_paths` rewrites, in every CSV file and every row, the
`image_path` cell to the join of the new base path with the basename of the
old value, and leaves every other cell, the row order, the file names and the
non-CSV files unchanged. -/
theorem C5_rewrite_paths (folder : List CsvFile) (new_image_path : List Char)
    (hok : ∀ f ∈ folder,
      ".csv".toList.isSuffixOf f.filename = true → f.has_image_path = true) :
    change_image_paths folder new_image_path =
      folder.map (fun f =>
        if ".csv".toList.isSuffixOf f.filename then
          ⟨f.filename, f.has_image_path,
            f.rows.map (fun r =>
              ⟨joinPath new_image_path (basename r.image_path), r.others⟩)⟩
        else f) := by
  induction folder with
  | nil => rfl
  | cons f rest ih =>
      have hrest : ∀ g ∈ rest,
          ".csv".toList.isSuffixOf g.filename = true → g.has_image_path = true :=
        fun g hg => hok g (by simp [hg])
      simp only [change_image_paths, List.map_cons]
      by_cases hc : ".csv".toList.isSuffixOf f.filename = true
      · have hyes := hok f (by simp) hc
        rw [if_pos hc, if_pos hyes, if_pos hc, ih hrest]
        rfl
      · rw [if_neg hc, if_neg hc, ih hrest]

/-- C5 witness: a concrete folder with one CSV file and one non-CSV file. -/
theorem C5_rewrite_paths_witness :
    change_image_paths [goodCsv, nonCsv] "/new".toList =
      [⟨"b.csv".toList, true, [⟨"/new/img2.png".toList, ["k".toList]⟩]⟩,
        nonCsv] := by
  have h := C5_rewrite_paths [goodCsv, nonCsv] "/new".toList (by decide)
  exact h.trans (by decide)

/-! ## Claim C6 -/

/-- C6 counterexample: `CFE_1m.tiff` has a recognized extension, the `CFE`
prefix and the depth marker `m` immediately before its extension, yet the
filter of `get_all_images` rejects it (so the file is not returned), because
`file.endswith('m' + file[-4:])` compares against the last four characters
`tiff` instead of the extension `.tiff`. -/
theorem C6_counterexample :
    specImageNameFilter "CFE_1m.tiff".toList = true ∧
    imageNameFilter "CFE_1m.tiff".toList = false ∧
    get_all_images [("d".toList, "CFE_1m.tiff".toList)] = [] := by decide

/-- C6 (amended): `get_all_images` returns exactly the walked files passing
its filter, and for names of length at least five the filter requires a
recognized extension (case-insensitively), the prefix `CFE`, and the letter
`m` as fifth-from-last character — that is, `m` immediately before a
four-character extension; depth-annotated names with the five-character
extensions `.jpeg` and `.tiff` therefore fail the filter. -/
theorem C6_image_filter (tree : List (List Char × List Char))
    (file : List Char) (h5 : 5 ≤ file.length) :
    get_all_images tree =
      (tree.filter (fun rf => imageNameFilter rf.2)).map
        (fun rf => joinPath rf.1 rf.2) ∧
    (imageNameFilter file = true ↔
      image_extensions.any (fun e => e.isSuffixOf (lowerName file)) = true ∧
        "CFE".toList.isPrefixOf file = true ∧
        file.getD (file.length - 5) ' ' = 'm') := by
  refine ⟨rfl, ?_⟩
  unfold imageNameFilter
  rw [Bool.and_eq_true, Bool.and_eq_true, m_marker_iff file h5]
  tauto

/-- C6 amended-claim witness: a depth-annotated name with a four-character
extension passes the filter. -/
theorem C6_image_filter_witness : imageNameFilter "CFE_1m.jpg".toList = true :=
  (C6_image_filter [] "CFE_1m.jpg".toList (by decide)).2.mpr (by decide)

/-! ## Claim C9 -/

/-- C9: the sampling interval is the integer quotient `fps // frame_rate`;
with a positive interval exactly the frames whose index is a multiple of it
are saved, and when the video's fps is smaller than the requested rate the
interval is zero, the first `count % interval` raises `ZeroDivisionError`,
and no frame is saved. -/
theorem C9_extract_frames (fps frame_rate total : Nat) :
    (0 < fps / frame_rate →
      extract_frames fps frame_rate total =
        ⟨(List.range total).filter (fun c => decide ((fps / frame_rate) ∣ c)),
          false⟩) ∧
    (0 < frame_rate → fps < frame_rate →
      (0 < total → extract_frames fps frame_rate total = ⟨[], true⟩) ∧
        (extract_frames fps frame_rate total).saved = []) := by
  constructor
  · intro hpos
    have hfr : ¬ frame_rate = 0 := by
      intro h
      rw [h] at hpos
      simp at hpos
    unfold extract_frames
    rw [if_neg hfr]
    simp only [Nat.pos_iff_ne_zero] at hpos
    rw [if_neg hpos]
    congr 1
    apply List.filter_congr
    intro c _
    simp only [Nat.dvd_iff_mod_eq_zero]
    cases c % (fps / frame_rate) <;> simp
  · intro hfr hlt
    have hint : fps / frame_rate = 0 := Nat.div_eq_of_lt hlt
    have hfr' : ¬ frame_rate = 0 := Nat.pos_iff_ne_zero.1 hfr
    constructor
    · intro htot
      unfold extract_frames
      rw [if_neg hfr']
      simp [hint, htot]
    · unfold extract_frames
      rw [if_neg hfr']
      simp [hint]

/-- C9 witness: sampling with a positive interval, and the zero-interval
crash leaving no saved frame. -/
theorem C9_extract_frames_witness :
    extract_frames 29 10 7 = ⟨[0, 2, 4, 6], false⟩ ∧
    extract_frames 5 10 7 = ⟨[], true⟩ := by
  refine ⟨((C9_extract_frames 29 10 7).1 (by decide)).trans (by decide), ?_⟩
  exact ((C9_extract_frames 5 10 7).2 (by decide) (by decide)).1 (by decide)

/-! ## Claim C10 -/

/-- C10: if the output MP4 already exists, `convert_avi_to_mp4` returns its
path and leaves the filesystem unchanged; consequently running the conversion
a second time over the same inputs changes nothing, and every file present
before a run is still present, unchanged, after it. -/
theorem C10_convert_idempotent (fs : FS) (video_path output_dir : List Char) :
    (fsHas fs (output_mp4 video_path output_dir) = true →
      convert_avi_to_mp4 fs video_path output_dir =
        (fs, output_mp4 video_path output_dir)) ∧
    convert_avi_to_mp4 (convert_avi_to_mp4 fs video_path output_dir).1
        video_path output_dir =
      ((convert_avi_to_mp4 fs video_path output_dir).1,
        output_mp4 video_path output_dir) ∧
    ∀ e ∈ fs, e ∈ (convert_avi_to_mp4 fs video_path output_dir).1 := by
  by_cases h : fsHas fs (output_mp4 video_path output_dir) = true
  · refine ⟨fun _ => ?_, ?_, fun e he => ?_⟩
    · unfold convert_avi_to_mp4
      rw [if_pos h]
    · unfold convert_avi_to_mp4
      rw [if_pos h]
      rw [if_pos h]
    · unfold convert_avi_to_mp4
      rw [if_pos h]
      exact he
  · have hsecond : fsHas
        (fs ++ [(output_mp4 video_path output_dir, ffmpegConvert video_path)])
        (output_mp4 video_path output_dir) = true := by
      simp [fsHas]
    refine ⟨fun hh => absurd hh h, ?_, fun e he => ?_⟩
    · unfold convert_avi_to_mp4
      rw [if_neg h]
      simp only
      rw [if_pos hsecond]
    · unfold convert_avi_to_mp4
      rw [if_neg h]
      simp [he]

/-- C10 witness: with the output `o/v.mp4` already present, the conversion of
`r/v.avi` returns that path and the unchanged filesystem. -/
theorem C10_convert_idempotent_witness :
    convert_avi_to_mp4 fsTest "r/v.avi".toList "o".toList =
      (fsTest, "o/v.mp4".toList) := by
  have h := (C10_convert_idempotent fsTest "r/v.avi".toList "o".toList).1
    (by decide)
  exact h.trans (by decide)

end ISIIS
